import Mathlib

/-!
Verification of the missile-tid GNSS TEC core: a shallow embedding of
`tid/connections.py`, `tid/dense_data.py` and `tid/tec.py`.

Machine floats are embedded as real numbers; numpy NaN used as a
"missing observable" marker is embedded as `Option ℝ`; Python code that
can raise is embedded as `Option`/`Except`-returning functions.
-/

namespace Tid

/-- Embedding of one row of the dense observation format
(`DENSE_TYPE` in `tid/dense_data.py`) as seen by `tid/connections.py`:
only the fields the connection code reads.  Values are real numbers. -/
structure Obs where
  tick : ℤ
  C1C : ℝ
  C2C : ℝ
  C2P : ℝ
  C5C : ℝ
  L1C : ℝ
  L2C : ℝ
  L5C : ℝ

/-- Speed of light in m/s (`laika.constants.SPEED_OF_LIGHT`),
re-exported as `tec.C`. -/
def C : ℝ := 299792458

/-- Earth radius in meters (`laika.constants.EARTH_RADIUS`). -/
def EARTH_RADIUS : ℝ := 6371000

/-- Ionosphere shell radius in meters (`tec.IONOSPHERE_H`):
Earth radius plus 350 km. -/
def IONOSPHERE_H : ℝ := EARTH_RADIUS + 350000

/-- Embedding of `connections.Connection`.  `obs` is the observation
slice `scenario.station_data[station][prn][idx_start : idx_end + 1]`;
`f1`/`f2` are the cached frequency pair (`Connection.frequencies`);
`n_chan1`/`n_chan2`/`offset`/`offset_error` are the mutable correction
state, `none` standing for Python `None`.

`vtec` — Modelled from the spec: `Connection.vtecs` delegates to
`tec.calculate_vtecs`, which is not part of the excerpted source; the
spec only says it returns, per sample, (VTEC value in TECu,
slant-to-vertical factor).  We model the VTEC row `con.vtecs[0]` as an
abstract per-connection array, embedded as a function from index. -/
structure Connection where
  station : String
  prn : String
  idx_start : ℤ
  idx_end : ℤ
  obs : List Obs
  f1 : ℝ
  f2 : ℝ
  n_chan1 : Option ℤ
  n_chan2 : Option ℤ
  offset : Option ℝ
  offset_error : Option ℝ
  vtec : ℤ → ℝ

namespace Connection

/-- Tick column of the connection's observation slice. -/
def ticks (c : Connection) : List ℤ := c.obs.map Obs.tick

/-- Embedding of `self.tick_start`: the tick field of the first row of
the observation slice. -/
def tick_start (c : Connection) : ℤ := c.ticks.headD 0

/-- Embedding of `self.tick_end`: the tick field of the last row of
the observation slice. -/
def tick_end (c : Connection) : ℤ := c.ticks.getLastD 0

end Connection

/-- Embedding of `Connection._init_missing_ticks`: for every pair of
consecutive observed ticks `(first, last)`, the ticks strictly between
them (`range(first + 1, last)`) are missing.  (The Python code only
visits pairs whose difference exceeds 1; for the other pairs the range
is empty, so taking the union over all consecutive pairs is the same
set.) -/
def missingOfTicks : List ℤ → Finset ℤ
  | a :: b :: rest => Finset.Ioo a b ∪ missingOfTicks (b :: rest)
  | _ => ∅

namespace Connection

/-- The `missing_ticks` set computed at construction. -/
def missing_ticks (c : Connection) : Finset ℤ := missingOfTicks c.ticks

/-- Embedding of `Connection.tick_idx`: `None` if the tick is missing;
otherwise start from `tick - tick_start` and decrement once for every
missing tick strictly below the queried tick (the Python loop over the
set `missing_ticks` decrements `guess` once per element below `tick`,
which is the cardinality of that filter). -/
def tick_idx (c : Connection) (tick : ℤ) : Option ℤ :=
  if tick ∈ c.missing_ticks then none
  else some (tick - c.tick_start - ((c.missing_ticks.filter (· < tick)).card : ℤ))

/-- Embedding of `Connection.__contains__`:
`tick_start <= tick <= tick_end`. -/
def containsTick (c : Connection) (tick : ℤ) : Bool :=
  decide (c.tick_start ≤ tick ∧ tick ≤ c.tick_end)

/-- Embedding of `Connection._correct_ambiguities_avg`, step 1:
`code_phase_diffs = observations["C2C"] - observations["C1C"]`. -/
def code_phase_diffs (c : Connection) : List ℝ :=
  List.zipWith (· - ·) (c.obs.map Obs.C2C) (c.obs.map Obs.C1C)

/-- Embedding of `Connection._correct_ambiguities_avg`, step 2:
`carrier_phase_diffs = tec.C * (observations["L1C"] / f1 - observations["L2C"] / f2)`. -/
noncomputable def carrier_phase_diffs (c : Connection) : List ℝ :=
  (List.zipWith (fun l1 l2 => l1 / c.f1 - l2 / c.f2)
    (c.obs.map Obs.L1C) (c.obs.map Obs.L2C)).map (C * ·)

/-- Embedding of `Connection._correct_ambiguities_avg`, step 3:
`difference = code_phase_diffs - carrier_phase_diffs`. -/
noncomputable def ambiguity_difference (c : Connection) : List ℝ :=
  List.zipWith (· - ·) c.code_phase_diffs c.carrier_phase_diffs

end Connection

/-- Arithmetic mean of a list (`numpy.mean`). -/
noncomputable def npMean (l : List ℝ) : ℝ := l.sum / l.length

/-- Population standard deviation of a list
(`numpy.std`, default `ddof = 0`). -/
noncomputable def npStd (l : List ℝ) : ℝ :=
  Real.sqrt (npMean (l.map (fun x => (x - npMean l) ^ 2)))

namespace Connection

/-- Embedding of `Connection._correct_ambiguities_avg`: sets `offset`
to the mean of the differences and `offset_error` to their standard
deviation.  State mutation is embedded as returning the updated
connection. -/
noncomputable def correct_ambiguities_avg (c : Connection) : Connection :=
  { c with
    offset := some (npMean c.ambiguity_difference)
    offset_error := some (npStd c.ambiguity_difference) }

/-- Embedding of `Connection.correct_ambiguities`: delegates to the
code-phase-smoothing average method. -/
noncomputable def correct_ambiguities (c : Connection) : Connection :=
  c.correct_ambiguities_avg

/-- Embedding of `Connection.carrier_correction_meters`: uses the
integer ambiguities if both are set, otherwise the smoothed offset,
otherwise the `assert False` failure is embedded as `Except.error`
with the assertion message. -/
noncomputable def carrier_correction_meters (c : Connection) : Except String ℝ :=
  match c.n_chan1, c.n_chan2 with
  | some n1, some n2 => .ok (C * ((n2 : ℝ) / c.f2 - (n1 : ℝ) / c.f1))
  | _, _ =>
    match c.offset with
    | some o => .ok o
    | none => .error "carrier correction attempted with no correction mechanism"

end Connection

/-- Embedding of `connections.SparseList`.  The backing numpy arrays
(`data`) are embedded as functions from index, and the per-range tick
lookup functions return `Option ℤ` (`None` = missing).  `max` is the
eagerly computed maximum range end. -/
structure SparseList (α : Type) where
  ranges : List (ℤ × ℤ)
  data : List (ℤ → α)
  tick_lookup : List (ℤ → Option ℤ)
  default : α
  max : ℤ

/-- Embedding of `SparseList.__init__`: Python's
`max(i[1] for i in index_ranges)` raises on an empty iterable, so
construction is fallible and returns `none` exactly when no index
range is supplied. -/
def SparseList.make {α : Type} (index_ranges : List (ℤ × ℤ))
    (data : List (ℤ → α)) (tick_lookup : List (ℤ → Option ℤ))
    (default : α) : Option (SparseList α) :=
  match (index_ranges.map Prod.snd).max? with
  | none => none
  | some m => some ⟨index_ranges, data, tick_lookup, default, m⟩

/-- Embedding of `SparseList.__len__`: `self.max + 1`. -/
def SparseList.length {α : Type} (sl : SparseList α) : ℤ := sl.max + 1

/-- One (range, datum, lookup) triple of a `SparseList`, as produced by
the `zip` in `SparseList.__getitem__`. -/
abbrev SLEntry (α : Type) := (ℤ × ℤ) × (ℤ → α) × (ℤ → Option ℤ)

/-- The zipped (range, datum, lookup) triples scanned by
`SparseList.__getitem__`. -/
def SparseList.entries {α : Type} (sl : SparseList α) : List (SLEntry α) :=
  sl.ranges.zip (sl.data.zip sl.tick_lookup)

/-- Two inclusive tick ranges overlap when some tick lies in both. -/
def rangesOverlap (r s : ℤ × ℤ) : Prop :=
  ∃ t : ℤ, (r.1 ≤ t ∧ t ≤ r.2) ∧ (s.1 ≤ t ∧ t ≤ s.2)

/-- Loop body of `SparseList.__getitem__`: scan the zipped triples in
order; on the first range whose inclusive bounds contain the tick,
resolve via that range's lookup (default if the lookup gives `None`);
default if no range matches. -/
def sparseGetAux {α : Type} (default : α) (tick : ℤ) : List (SLEntry α) → α
  | [] => default
  | (r, dat, lk) :: rest =>
    if r.1 ≤ tick ∧ tick ≤ r.2 then
      match lk tick with
      | none => default
      | some idx => dat idx
    else sparseGetAux default tick rest

/-- Embedding of `SparseList.__getitem__`. -/
def SparseList.getItem {α : Type} (sl : SparseList α) (tick : ℤ) : α :=
  sparseGetAux sl.default tick sl.entries

/-- Embedding of `connections.ConnTickMap`. -/
structure ConnTickMap where
  connections : List Connection

namespace ConnTickMap

/-- Embedding of `ConnTickMap.__getitem__`: linear scan for the first
connection containing the tick; the `KeyError` is embedded as `none`. -/
def getItem (m : ConnTickMap) (tick : ℤ) : Option Connection :=
  m.connections.find? (fun c => c.containsTick tick)

/-- Embedding of `ConnTickMap.get_vtecs`: one `SparseList` over every
member connection, with the connection's tick range, VTEC row and
`tick_idx` as the lookup. -/
def get_vtecs (m : ConnTickMap) : Option (SparseList ℝ) :=
  SparseList.make
    (m.connections.map fun c => (c.tick_start, c.tick_end))
    (m.connections.map fun c => c.vtec)
    (m.connections.map fun c => c.tick_idx)
    0

/-- Embedding of `ConnTickMap.get_filtered_vtecs`.

Modelled from the spec: `util.bpfilter` (the second-order band-pass
filter) and `util.BUTTER_MIN_LENGTH` (the minimum length needed to
filter stably) live in `tid/util.py`, which is not part of the
excerpted source; they are taken as parameters `bp` and `minLen`.
The loop with `continue` for connections with
`idx_end - idx_start < BUTTER_MIN_LENGTH` is embedded as a `filter`
followed by the three `map`s building the parallel lists. -/
def get_filtered_vtecs (bp : (ℤ → ℝ) → ℤ → ℝ) (minLen : ℤ)
    (m : ConnTickMap) : Option (SparseList ℝ) :=
  let keep := m.connections.filter fun c => !decide (c.idx_end - c.idx_start < minLen)
  SparseList.make
    (keep.map fun c => (c.tick_start, c.tick_end))
    (keep.map fun c => bp c.vtec)
    (keep.map fun c => c.tick_idx)
    0

end ConnTickMap

/-! Embedding of `tid/dense_data.py`.  The Laika observables are
floats with NaN marking a missing observable (`observables.get(key,
numpy.nan)`), embedded as `Option ℝ` with `none` for NaN. -/

/-- One raw Laika `GNSSMeasurement`, restricted to the fields
`_meas_to_tuple` reads. -/
structure RawMeas where
  prn : String
  C1C : Option ℝ
  C2C : Option ℝ
  C2P : Option ℝ
  C5C : Option ℝ
  L1C : Option ℝ
  L2C : Option ℝ
  L5C : Option ℝ
  recv_time_sec : ℝ
  recv_time_week : ℤ
  sat_clock_err : ℝ
  sat_pos : ℝ × ℝ × ℝ
  sat_vel : ℝ × ℝ × ℝ
  sat_pos_final : ℝ × ℝ × ℝ
  corrected : Bool
  processed : Bool

/-- One row of the dense format (`DENSE_TYPE`), as produced by
`_meas_to_tuple`. -/
structure DenseRow where
  tick : ℤ
  C1C : Option ℝ
  C2C : Option ℝ
  C2P : Option ℝ
  C5C : Option ℝ
  L1C : Option ℝ
  L2C : Option ℝ
  L5C : Option ℝ
  recv_time_sec : ℝ
  recv_time_week : ℤ
  sat_clock_err : ℝ
  sat_pos : ℝ × ℝ × ℝ
  sat_vel : ℝ × ℝ × ℝ
  sat_pos_final : ℝ × ℝ × ℝ
  is_processed : Bool
  is_corrected : Bool

/-- Embedding of `dense_data._meas_to_tuple` (tick is always 0; the
last two tuple slots are `bool(corrected), bool(processed)` in that
order, landing in the `is_processed` and `is_corrected` columns). -/
def meas_to_tuple (m : RawMeas) : DenseRow :=
  { tick := 0
    C1C := m.C1C, C2C := m.C2C, C2P := m.C2P, C5C := m.C5C
    L1C := m.L1C, L2C := m.L2C, L5C := m.L5C
    recv_time_sec := m.recv_time_sec
    recv_time_week := m.recv_time_week
    sat_clock_err := m.sat_clock_err
    sat_pos := m.sat_pos, sat_vel := m.sat_vel
    sat_pos_final := m.sat_pos_final
    is_processed := m.corrected
    is_corrected := m.processed }

/-- One step of building `sv_dict_tmp`: append the measurement to its
satellite's list, creating the entry on first sight (Python dicts keep
insertion order, embedded as an association list). -/
def addMeas (acc : List (String × List RawMeas)) (m : RawMeas) :
    List (String × List RawMeas) :=
  if (acc.lookup m.prn).isSome then
    acc.map (fun p => if p.1 = m.prn then (p.1, p.2 ++ [m]) else p)
  else
    acc ++ [(m.prn, [m])]

/-- The double loop of `from_raw_obs` that fills `sv_dict_tmp`. -/
def groupByPrn (raw_obs : List (List RawMeas)) : List (String × List RawMeas) :=
  raw_obs.foldl (fun acc sat_obs => sat_obs.foldl addMeas acc) []

/-- The column swap `out[key][["C2C", "C2P"]] = out[key][["C2P", "C2C"]]`
applied to one row. -/
def swapBands (r : DenseRow) : DenseRow :=
  { r with C2C := r.C2P, C2P := r.C2C }

/-- The band-swap normalization of `from_raw_obs`: if every `C2C`
value of the satellite's array is NaN, swap the `C2C` and `C2P`
columns. -/
def normalizeBands (rows : List DenseRow) : List DenseRow :=
  if rows.all (fun r => r.C2C.isNone) then rows.map swapBands else rows

/-- Embedding of `dense_data.from_raw_obs`: group the raw measurements
by satellite, convert each to the dense row format, and apply the
band-swap normalization per satellite. -/
def from_raw_obs (raw_obs : List (List RawMeas)) : List (String × List DenseRow) :=
  (groupByPrn raw_obs).map (fun p => (p.1, normalizeBands (p.2.map meas_to_tuple)))

/-! Embedding of `tid/tec.py`'s `ion_locs`. -/

/-- An XYZ ECEF position in meters. -/
abbrev Vec3 := ℝ × ℝ × ℝ

/-- Componentwise difference of two positions. -/
def v3sub (u v : Vec3) : Vec3 := (u.1 - v.1, u.2.1 - v.2.1, u.2.2 - v.2.2)

/-- Componentwise sum of two positions. -/
def v3add (u v : Vec3) : Vec3 := (u.1 + v.1, u.2.1 + v.2.1, u.2.2 + v.2.2)

/-- Scaling of a position by a scalar. -/
def v3smul (t : ℝ) (v : Vec3) : Vec3 := (t * v.1, t * v.2.1, t * v.2.2)

/-- Dot product (`numpy.sum(u * v, axis=1)` for one sample). -/
def v3dot (u v : Vec3) : ℝ := u.1 * v.1 + u.2.1 * v.2.1 + u.2.2 * v.2.2

/-- The per-sample root selection of `tec.ion_locs`: with
`common = sqrt(b² − 4·a·c) / (2·a)` and `b_scaled = −b / (2·a)`, of
the two roots `x = b_scaled + common` and `y = b_scaled − common`,
keep the one with the smaller absolute value (`y` when
`abs x < abs y` fails, exactly as the Python comparison). -/
noncomputable def ionRoot (a b c : ℝ) : ℝ :=
  if |(-b / (2 * a) + Real.sqrt (b ^ 2 - 4 * a * c) / (2 * a))| <
      |(-b / (2 * a) - Real.sqrt (b ^ 2 - 4 * a * c) / (2 * a))| then
    -b / (2 * a) + Real.sqrt (b ^ 2 - 4 * a * c) / (2 * a)
  else
    -b / (2 * a) - Real.sqrt (b ^ 2 - 4 * a * c) / (2 * a)

/-- Embedding of `tec.ion_locs` for a single satellite sample: solve
`a·t² + b·t + c = 0` with `a = |sat − rec|²`, `b = 2·(sat − rec)·rec`,
`c = |rec|² − ionh²`; keep the root with the smaller absolute value
and return `rec + (sat − rec)·t`. -/
noncomputable def ion_loc (rec_pos sat_pos : Vec3) (ionh : ℝ) : Vec3 :=
  let d := v3sub sat_pos rec_pos
  v3add rec_pos (v3smul
    (ionRoot (v3dot d d) (2 * v3dot d rec_pos)
      (v3dot rec_pos rec_pos - ionh ^ 2)) d)

/-- Embedding of `tec.ion_locs`: the Python loop chooses the root for
each sample independently; the receiver position (and hence `c`) is
shared by all samples. -/
noncomputable def ion_locs (rec_pos : Vec3) (sat_pos : List Vec3)
    (ionh : ℝ) : List Vec3 :=
  sat_pos.map (fun s => ion_loc rec_pos s ionh)

/-! Concrete example inputs used to witness the theorems below. -/

/-- An observation row with a given tick and zero measurements. -/
def mkObs (t : ℤ) : Obs := ⟨t, 0, 0, 0, 0, 0, 0, 0⟩

/-- A connection with given observation ticks, index range and
correction state. -/
def mkConn (ts : List ℤ) (is ie : ℤ) (n1 n2 : Option ℤ) (o : Option ℝ) :
    Connection :=
  { station := "stn", prn := "G01", idx_start := is, idx_end := ie
    obs := ts.map mkObs, f1 := 2, f2 := 4
    n_chan1 := n1, n_chan2 := n2, offset := o, offset_error := none
    vtec := fun _ => 0 }

/-- The spec's concrete scenario: samples at ticks 100, 101, 103, 104. -/
def exGapConn : Connection := mkConn [100, 101, 103, 104] 0 3 none none none

/-- A connection covering ticks 200 to 209 with ten samples. -/
def exLongConn : Connection := mkConn [200, 201, 202, 203, 204, 205, 206, 207, 208, 209] 0 9 none none none

/-- A connection covering ticks 300 to 302 with three samples. -/
def exShortConn : Connection := mkConn [300, 301, 302] 10 12 none none none

/-- A tick map holding the long and the short example connections. -/
def exMap : ConnTickMap := ⟨[exLongConn, exShortConn]⟩

/-- Example backing array for ticks 0 to 1. -/
def exDatumA : ℤ → ℤ := fun i => 10 * i

/-- Example backing array for ticks 5 to 9. -/
def exDatumB : ℤ → ℤ := fun i => 100 * i

/-- Example lookup for ticks 0 to 1 (nothing missing). -/
def exLookupA : ℤ → Option ℤ := fun t => some t

/-- Example lookup for ticks 5 to 9, tick 8 locally missing. -/
def exLookupB : ℤ → Option ℤ := fun t => if t = 8 then none else some (t - 5)

/-- An example sparse list over ranges [0,1] and [5,9]. -/
def exSLa : SparseList ℤ :=
  ⟨[(0, 1), (5, 9)], [exDatumA, exDatumB], [exLookupA, exLookupB], 42, 9⟩

/-- The same sparse list with its ranges supplied in the other order. -/
def exSLb : SparseList ℤ :=
  ⟨[(5, 9), (0, 1)], [exDatumB, exDatumA], [exLookupB, exLookupA], 42, 9⟩

/-- An identity stand-in for the band-pass filter parameter. -/
def exBp : (ℤ → ℝ) → ℤ → ℝ := fun f => f

/-- A raw measurement with a given satellite and secondary code-phase
bands. -/
def exRawMeas (p : String) (c2c c2p : Option ℝ) : RawMeas :=
  { prn := p, C1C := some 1, C2C := c2c, C2P := c2p, C5C := none
    L1C := some 2, L2C := some 3, L5C := none
    recv_time_sec := 0, recv_time_week := 0, sat_clock_err := 0
    sat_pos := (0, 0, 0), sat_vel := (0, 0, 0), sat_pos_final := (0, 0, 0)
    corrected := false, processed := true }

/-- A raw observation batch for one satellite whose C2C band is
entirely NaN while C2P carries values. -/
def exRawObs : List (List RawMeas) :=
  [[exRawMeas "G1" none (some 5), exRawMeas "G1" none (some 6)]]

/-!  Theorems, one per claim, with their witnesses. -/

/-- Claim C5: `carrier_correction_meters` returns speed-of-light ×
(n_chan2/f2 − n_chan1/f1) when both integer ambiguities are set;
otherwise, when `offset` is set, it returns `offset`; and when neither
correction mechanism has been computed it fails with the fatal
assertion error rather than returning a value. -/
theorem carrier_correction_spec (c : Connection) :
    (∀ n1 n2, c.n_chan1 = some n1 → c.n_chan2 = some n2 →
        c.carrier_correction_meters =
          Except.ok (C * ((n2 : ℝ) / c.f2 - (n1 : ℝ) / c.f1))) ∧
    (∀ o, (c.n_chan1 = none ∨ c.n_chan2 = none) → c.offset = some o →
        c.carrier_correction_meters = Except.ok o) ∧
    ((c.n_chan1 = none ∨ c.n_chan2 = none) → c.offset = none →
        c.carrier_correction_meters =
          Except.error "carrier correction attempted with no correction mechanism") := by
  refine ⟨?_, ?_, ?_⟩
  · intro n1 n2 h1 h2
    simp [Connection.carrier_correction_meters, h1, h2]
  · intro o hor hoff
    rcases hor with h | h
    · cases h2 : c.n_chan2 <;>
        simp [Connection.carrier_correction_meters, h, h2, hoff]
    · cases h1 : c.n_chan1 <;>
        simp [Connection.carrier_correction_meters, h, h1, hoff]
  · intro hor hoff
    rcases hor with h | h
    · cases h2 : c.n_chan2 <;>
        simp [Connection.carrier_correction_meters, h, h2, hoff]
    · cases h1 : c.n_chan1 <;>
        simp [Connection.carrier_correction_meters, h, h1, hoff]

/-- Witness for C5 at three concrete connections: both ambiguities
set, only the offset set, and nothing set. -/
theorem carrier_correction_spec_witness :
    ((mkConn [0] 0 0 (some 3) (some 5) none).carrier_correction_meters =
        Except.ok (C * ((5 : ℝ) / 4 - (3 : ℝ) / 2))) ∧
    ((mkConn [0] 0 0 none none (some 7)).carrier_correction_meters = Except.ok 7) ∧
    ((mkConn [0] 0 0 none none none).carrier_correction_meters =
        Except.error "carrier correction attempted with no correction mechanism") :=
  ⟨((carrier_correction_spec (mkConn [0] 0 0 (some 3) (some 5) none)).1 3 5 rfl rfl).trans
      (by norm_num [mkConn]),
   (carrier_correction_spec (mkConn [0] 0 0 none none (some 7))).2.1 7 (Or.inl rfl) rfl,
   (carrier_correction_spec (mkConn [0] 0 0 none none none)).2.2 (Or.inl rfl) rfl⟩

/-- Claim C8: `ConnTickMap.__getitem__(tick)` returns the first member
connection whose inclusive `[tick_start, tick_end]` range contains the
tick (membership inclusive of missing ticks), and raises `KeyError`
(here: `none`) exactly when no member connection's range contains it. -/
theorem conn_tick_map_getitem_spec (m : ConnTickMap) (tick : ℤ) :
    (m.getItem tick = none ↔
        ∀ c ∈ m.connections, ¬(c.tick_start ≤ tick ∧ tick ≤ c.tick_end)) ∧
    (∀ c, m.getItem tick = some c →
        (c.tick_start ≤ tick ∧ tick ≤ c.tick_end) ∧
        ∃ pre post, m.connections = pre ++ c :: post ∧
          ∀ c' ∈ pre, ¬(c'.tick_start ≤ tick ∧ tick ≤ c'.tick_end)) ∧
    (∀ pre c post, m.connections = pre ++ c :: post →
        (c.tick_start ≤ tick ∧ tick ≤ c.tick_end) →
        (∀ c' ∈ pre, ¬(c'.tick_start ≤ tick ∧ tick ≤ c'.tick_end)) →
        m.getItem tick = some c) := by
  refine ⟨?_, ?_, ?_⟩
  · rw [ConnTickMap.getItem, List.find?_eq_none]
    simp [Connection.containsTick]
  · intro c hc
    rw [ConnTickMap.getItem, List.find?_eq_some] at hc
    obtain ⟨hp, pre, post, heq, hpre⟩ := hc
    refine ⟨by simpa [Connection.containsTick] using hp, pre, post, heq, ?_⟩
    intro c' hc'
    have h := hpre c' hc'
    simp only [Connection.containsTick] at h ⊢
    intro hcontra
    rw [decide_eq_true hcontra] at h
    simp at h
  · intro pre c post heq hc hpre
    rw [ConnTickMap.getItem, List.find?_eq_some]
    refine ⟨by simpa [Connection.containsTick] using hc, pre, post, heq, ?_⟩
    intro c' hc'
    have h := hpre c' hc'
    simp only [Connection.containsTick] at h ⊢
    rw [decide_eq_false h]
    rfl

/-- Witness for C8: in the example map, tick 301 is owned by the short
connection (the long one, scanned first, does not contain it), and
tick 500 is covered by nobody. -/
theorem conn_tick_map_getitem_spec_witness :
    exMap.getItem 301 = some exShortConn ∧ exMap.getItem 500 = none :=
  ⟨(conn_tick_map_getitem_spec exMap 301).2.2 [exLongConn] exShortConn [] rfl
      (by decide)
      (by intro c' hc'; rw [List.mem_singleton] at hc'; subst hc'; decide),
   (conn_tick_map_getitem_spec exMap 500).1.mpr (by
      intro c hc
      rcases List.mem_cons.mp hc with h | h
      · subst h; decide
      · rw [List.mem_singleton] at h; subst h; decide)⟩

/-- Claim C10: constructing a `SparseList` requires at least one index
range: its length is one plus the maximum range end, computed eagerly
at construction, so building from an empty collection of ranges fails
(`none`); consequently a `ConnTickMap` whose member connections are
all below the minimum filtering length makes `get_filtered_vtecs`
fail instead of returning an all-default view. -/
theorem sparse_list_empty_construction_spec :
    (∀ (α : Type) (ranges : List (ℤ × ℤ)) (data : List (ℤ → α))
        (lookup : List (ℤ → Option ℤ)) (d : α),
        (SparseList.make ranges data lookup d = none ↔ ranges = []) ∧
        (∀ sl, SparseList.make ranges data lookup d = some sl →
            (ranges.map Prod.snd).max? = some sl.max ∧
            sl.length = sl.max + 1)) ∧
    (∀ (bp : (ℤ → ℝ) → ℤ → ℝ) (minLen : ℤ) (m : ConnTickMap),
        (∀ c ∈ m.connections, c.idx_end - c.idx_start < minLen) →
        m.get_filtered_vtecs bp minLen = none) := by
  constructor
  · intro α ranges data lookup d
    constructor
    · rw [SparseList.make]
      split
      · rename_i hmax
        rw [List.max?_eq_none_iff, List.map_eq_nil_iff] at hmax
        simp [hmax]
      · rename_i mx hmax
        have hne : ranges ≠ [] := by
          rintro rfl
          simp at hmax
        simp [hne]
    · intro sl hsl
      rw [SparseList.make] at hsl
      split at hsl
      · exact absurd hsl (by simp)
      · rename_i mx hmax
        obtain rfl := Option.some.inj hsl
        exact ⟨hmax, rfl⟩
  · intro bp minLen m hshort
    rw [ConnTickMap.get_filtered_vtecs]
    have hkeep : m.connections.filter
        (fun c => !decide (c.idx_end - c.idx_start < minLen)) = [] := by
      rw [List.filter_eq_nil_iff]
      intro c hc
      simp [hshort c hc]
    simp only [hkeep, List.map_nil]
    rfl

/-- Witness for C10: a map whose only connection is three samples long
produces no filtered view when the minimum length is 5, and an empty
range collection refuses construction. -/
theorem sparse_list_empty_construction_spec_witness :
    (SparseList.make ([] : List (ℤ × ℤ)) ([] : List (ℤ → ℝ)) [] 0 = none) ∧
    ConnTickMap.get_filtered_vtecs exBp 5 ⟨[exShortConn]⟩ = none :=
  ⟨(sparse_list_empty_construction_spec.1 ℝ [] [] [] 0).1.mpr rfl,
   sparse_list_empty_construction_spec.2 exBp 5 ⟨[exShortConn]⟩ (by
      intro c hc
      rw [List.mem_singleton] at hc
      subst hc
      decide)⟩

/-- Claim C1: `get_filtered_vtecs` builds its `SparseList` from exactly the
member connections whose length reaches the minimum filtering length
(the too-short ones contribute no range, data, or lookup entry, and
skipping them raises no error so long as some connection survives),
while `get_vtecs` builds its `SparseList` over every member connection
regardless of length. -/
theorem filtered_vtecs_spec (bp : (ℤ → ℝ) → ℤ → ℝ) (minLen : ℤ) (m : ConnTickMap) :
    ((∃ c ∈ m.connections, ¬(c.idx_end - c.idx_start < minLen)) →
        ∃ sl, m.get_filtered_vtecs bp minLen = some sl) ∧
    (∀ sl, m.get_filtered_vtecs bp minLen = some sl →
        sl.ranges = ((m.connections.filter fun c =>
            decide (minLen ≤ c.idx_end - c.idx_start)).map
            fun c => (c.tick_start, c.tick_end)) ∧
        sl.data = ((m.connections.filter fun c =>
            decide (minLen ≤ c.idx_end - c.idx_start)).map fun c => bp c.vtec) ∧
        sl.tick_lookup = ((m.connections.filter fun c =>
            decide (minLen ≤ c.idx_end - c.idx_start)).map fun c => c.tick_idx)) ∧
    (∀ sl, m.get_vtecs = some sl →
        sl.ranges = (m.connections.map fun c => (c.tick_start, c.tick_end)) ∧
        sl.data = (m.connections.map fun c => c.vtec) ∧
        sl.tick_lookup = (m.connections.map fun c => c.tick_idx)) := by
  have hfilter : (m.connections.filter fun c =>
      !decide (c.idx_end - c.idx_start < minLen)) =
      (m.connections.filter fun c => decide (minLen ≤ c.idx_end - c.idx_start)) := by
    apply List.filter_congr
    intro c _
    rw [← decide_not]
    exact decide_eq_decide.mpr (by omega)
  refine ⟨?_, ?_, ?_⟩
  · rintro ⟨c, hc, hlong⟩
    have hmem : c ∈ m.connections.filter
        (fun c => !decide (c.idx_end - c.idx_start < minLen)) :=
      List.mem_filter.mpr ⟨hc, by simpa using hlong⟩
    rw [ConnTickMap.get_filtered_vtecs, SparseList.make]
    split
    · rename_i hmax
      rw [List.max?_eq_none_iff, List.map_eq_nil_iff, List.map_eq_nil_iff] at hmax
      rw [hmax] at hmem
      exact absurd hmem (List.not_mem_nil c)
    · exact ⟨_, rfl⟩
  · intro sl hsl
    rw [ConnTickMap.get_filtered_vtecs, SparseList.make] at hsl
    split at hsl
    · exact absurd hsl (by simp)
    · rename_i mx hmax
      obtain rfl := Option.some.inj hsl
      exact ⟨by rw [hfilter], by rw [hfilter], by rw [hfilter]⟩
  · intro sl hsl
    rw [ConnTickMap.get_vtecs, SparseList.make] at hsl
    split at hsl
    · exact absurd hsl (by simp)
    · rename_i mx hmax
      obtain rfl := Option.some.inj hsl
      exact ⟨rfl, rfl, rfl⟩

/-- Witness for C1: the example map (one ten-sample connection, one
three-sample connection) has a filtered view, and its raw view covers
both members. -/
theorem filtered_vtecs_spec_witness :
    (∃ sl, ConnTickMap.get_filtered_vtecs exBp 5 exMap = some sl) ∧
    (∀ sl, ConnTickMap.get_vtecs exMap = some sl →
        sl.ranges = (exMap.connections.map fun c => (c.tick_start, c.tick_end)) ∧
        sl.data = (exMap.connections.map fun c => c.vtec) ∧
        sl.tick_lookup = (exMap.connections.map fun c => c.tick_idx)) :=
  ⟨(filtered_vtecs_spec exBp 5 exMap).1
      ⟨exLongConn, by simp [exMap], by decide⟩,
   (filtered_vtecs_spec exBp 5 exMap).2.2⟩

/-- Claim C2: for every connection and tick in range, `tick_idx` returns the
absent marker (`none`) iff the tick is missing, and otherwise returns
`(tick − tick_start)` minus the number of missing ticks strictly below
the tick; in particular, for samples at ticks 100, 101, 103, 104 the
missing set is `{102}`, `tick_idx 101 = 1`, `tick_idx 102 = None`, and
`tick_idx 103 = 2`. -/
theorem tick_idx_spec :
    (∀ (c : Connection) (tick : ℤ), c.tick_start ≤ tick → tick ≤ c.tick_end →
        ((c.tick_idx tick = none ↔ tick ∈ c.missing_ticks) ∧
         (tick ∉ c.missing_ticks →
            c.tick_idx tick =
              some (tick - c.tick_start -
                ((c.missing_ticks.filter (· < tick)).card : ℤ))))) ∧
    (exGapConn.missing_ticks = {102} ∧
     exGapConn.tick_idx 101 = some 1 ∧
     exGapConn.tick_idx 102 = none ∧
     exGapConn.tick_idx 103 = some 2) := by
  constructor
  · intro c tick _ _
    constructor
    · rw [Connection.tick_idx]
      split <;> simp_all
    · intro hmiss
      rw [Connection.tick_idx, if_neg hmiss]
  · exact ⟨by decide, by decide, by decide, by decide⟩

/-- Witness for C2 at the spec's concrete scenario, tick 103. -/
theorem tick_idx_spec_witness :
    (exGapConn.tick_idx 103 = none ↔ 103 ∈ exGapConn.missing_ticks) ∧
    (103 ∉ exGapConn.missing_ticks →
        exGapConn.tick_idx 103 =
          some (103 - exGapConn.tick_start -
            ((exGapConn.missing_ticks.filter (· < 103)).card : ℤ))) :=
  tick_idx_spec.1 exGapConn 103 (by decide) (by decide)

/-- Scanning a list of triples none of whose ranges contains the tick
yields the default. -/
theorem sparseGetAux_eq_default {α : Type} (d : α) (tick : ℤ)
    (l : List (SLEntry α)) (h : ∀ e ∈ l, ¬(e.1.1 ≤ tick ∧ tick ≤ e.1.2)) :
    sparseGetAux d tick l = d := by
  induction l with
  | nil => rfl
  | cons e rest ih =>
    obtain ⟨r, dat, lk⟩ := e
    simp only [sparseGetAux]
    rw [if_neg (h _ (List.mem_cons_self _ _))]
    exact ih fun f hf => h f (List.mem_cons_of_mem _ hf)

/-- Scanning resolves at the first triple whose range contains the
tick. -/
theorem sparseGetAux_first_match {α : Type} (d : α) (tick : ℤ)
    (pre post : List (SLEntry α)) (e : SLEntry α)
    (hpre : ∀ f ∈ pre, ¬(f.1.1 ≤ tick ∧ tick ≤ f.1.2))
    (he : e.1.1 ≤ tick ∧ tick ≤ e.1.2) :
    sparseGetAux d tick (pre ++ e :: post) =
      (match e.2.2 tick with
        | none => d
        | some idx => e.2.1 idx) := by
  induction pre with
  | nil =>
    obtain ⟨r, dat, lk⟩ := e
    simp only [List.nil_append, sparseGetAux]
    rw [if_pos he]
  | cons f rest ih =>
    obtain ⟨fr, fdat, flk⟩ := f
    simp only [List.cons_append, sparseGetAux]
    rw [if_neg (hpre _ (List.mem_cons_self _ _))]
    exact ih fun g hg => hpre g (List.mem_cons_of_mem _ hg)

/-- With pairwise non-overlapping ranges, scanning resolves at the
(unique) member triple whose range contains the tick, wherever it
sits in the list. -/
theorem sparseGetAux_of_mem {α : Type} (d : α) (tick : ℤ)
    (l : List (SLEntry α))
    (hpw : l.Pairwise fun e f => ¬ rangesOverlap e.1 f.1)
    (e : SLEntry α) (he : e ∈ l) (hc : e.1.1 ≤ tick ∧ tick ≤ e.1.2) :
    sparseGetAux d tick l =
      (match e.2.2 tick with
        | none => d
        | some idx => e.2.1 idx) := by
  induction l with
  | nil => cases he
  | cons f rest ih =>
    rw [List.pairwise_cons] at hpw
    obtain ⟨hf, hpw'⟩ := hpw
    by_cases hfc : f.1.1 ≤ tick ∧ tick ≤ f.1.2
    · rcases List.mem_cons.mp he with rfl | hmem
      · obtain ⟨r, dat, lk⟩ := e
        simp only [sparseGetAux]
        rw [if_pos hfc]
      · exact absurd ⟨tick, hfc, hc⟩ (hf e hmem)
    · rcases List.mem_cons.mp he with rfl | hmem
      · exact absurd hc hfc
      · obtain ⟨fr, fdat, flk⟩ := f
        simp only [sparseGetAux]
        rw [if_neg hfc]
        exact ih hpw' hmem

/-- Two ranges the first of which ends before the second starts do not
overlap. -/
theorem not_rangesOverlap_of_lt {a b c d : ℤ} (h : b < c) :
    ¬ rangesOverlap (a, b) (c, d) := by
  rintro ⟨t, ⟨_, h1⟩, h2, _⟩
  simp at h1 h2
  omega

/-- The non-overlap relation on entries is symmetric. -/
theorem rangesOverlap_not_symm {α : Type} {e f : SLEntry α}
    (h : ¬ rangesOverlap e.1 f.1) : ¬ rangesOverlap f.1 e.1 := by
  rintro ⟨t, h1, h2⟩
  exact h ⟨t, h2, h1⟩

/-- With pairwise non-overlapping ranges the scan result is invariant
under permutation of the triples. -/
theorem sparseGetAux_perm {α : Type} (d : α) (tick : ℤ)
    (l l' : List (SLEntry α)) (hperm : List.Perm l l')
    (hpw : l.Pairwise fun e f => ¬ rangesOverlap e.1 f.1) :
    sparseGetAux d tick l = sparseGetAux d tick l' := by
  have hpw' : l'.Pairwise fun e f => ¬ rangesOverlap e.1 f.1 :=
    (hperm.pairwise_iff fun h => rangesOverlap_not_symm h).mp hpw
  by_cases hex : ∃ e ∈ l, e.1.1 ≤ tick ∧ tick ≤ e.1.2
  · obtain ⟨e, he, hc⟩ := hex
    rw [sparseGetAux_of_mem d tick l hpw e he hc,
      sparseGetAux_of_mem d tick l' hpw' e (hperm.mem_iff.mp he) hc]
  · push_neg at hex
    rw [sparseGetAux_eq_default d tick l
        (by intro f hf hc; exact absurd hc.2 (not_le.mpr (hex f hf hc.1))),
      sparseGetAux_eq_default d tick l'
        (by
          intro f hf hc
          exact absurd hc.2 (not_le.mpr (hex f (hperm.mem_iff.mpr hf) hc.1)))]

/-- Claim C4: `SparseList.__getitem__(tick)` scans the (range, data, lookup)
triples in order and, on the first range whose inclusive bounds
contain the tick, returns `data[lookup(tick)]`, or the configured
default if the lookup signals missing; if no range contains the tick
it returns the default; and when ranges are non-overlapping the result
is independent of the order in which the ranges were supplied. -/
theorem sparse_getitem_spec {α : Type} (sl : SparseList α) (tick : ℤ) :
    ((∀ e ∈ sl.entries, ¬(e.1.1 ≤ tick ∧ tick ≤ e.1.2)) →
        sl.getItem tick = sl.default) ∧
    (∀ pre e post, sl.entries = pre ++ e :: post →
        (e.1.1 ≤ tick ∧ tick ≤ e.1.2) →
        (∀ f ∈ pre, ¬(f.1.1 ≤ tick ∧ tick ≤ f.1.2)) →
        sl.getItem tick =
          (match e.2.2 tick with
            | none => sl.default
            | some idx => e.2.1 idx)) ∧
    (∀ sl' : SparseList α, sl'.default = sl.default →
        List.Perm sl'.entries sl.entries →
        (sl.entries.Pairwise fun e f => ¬ rangesOverlap e.1 f.1) →
        sl'.getItem tick = sl.getItem tick) := by
  refine ⟨?_, ?_, ?_⟩
  · intro h
    exact sparseGetAux_eq_default _ _ _ h
  · intro pre e post hsplit he hpre
    rw [SparseList.getItem, hsplit]
    exact sparseGetAux_first_match _ _ _ _ _ hpre he
  · intro sl' hdef hperm hpw
    rw [SparseList.getItem, SparseList.getItem, hdef]
    exact sparseGetAux_perm _ _ _ _ hperm
      ((hperm.pairwise_iff fun h => rangesOverlap_not_symm h).mpr hpw)

/-- Witness for C4 on two concrete sparse lists that differ only in
the order of their (non-overlapping) ranges: outside-all-ranges and
first-match lookups, and order independence at tick 7. -/
theorem sparse_getitem_spec_witness :
    exSLa.getItem 100 = exSLa.default ∧
    (exSLa.getItem 7 =
      (match exLookupB 7 with
        | none => exSLa.default
        | some idx => exDatumB idx)) ∧
    exSLb.getItem 7 = exSLa.getItem 7 := by
  refine ⟨?_, ?_, ?_⟩
  · refine (sparse_getitem_spec exSLa 100).1 ?_
    intro e he
    have he2 : e ∈ [((0, 1), exDatumA, exLookupA),
        ((5, 9), exDatumB, exLookupB)] := he
    rcases List.mem_cons.mp he2 with rfl | he'
    · decide
    · rw [List.mem_singleton] at he'
      subst he'
      decide
  · refine (sparse_getitem_spec exSLa 7).2.1 [((0, 1), exDatumA, exLookupA)]
      ((5, 9), exDatumB, exLookupB) [] rfl (by decide) ?_
    intro f hf
    rw [List.mem_singleton] at hf
    subst hf
    decide
  · refine (sparse_getitem_spec exSLa 7).2.2 exSLb rfl ?_ ?_
    · show List.Perm
        [((5, 9), exDatumB, exLookupB), ((0, 1), exDatumA, exLookupA)]
        [((0, 1), exDatumA, exLookupA), ((5, 9), exDatumB, exLookupB)]
      exact List.Perm.swap _ _ _
    · show List.Pairwise _
        [((0, 1), exDatumA, exLookupA), ((5, 9), exDatumB, exLookupB)]
      refine List.pairwise_cons.mpr ⟨?_, List.pairwise_singleton _ _⟩
      intro f hf
      rw [List.mem_singleton] at hf
      subst hf
      exact not_rangesOverlap_of_lt (by norm_num)

/-- The three parallel numpy array operations of
`_correct_ambiguities_avg` compute, per sample, the claim's
per-sample residual. -/
theorem ambiguity_difference_eq (c : Connection) :
    c.ambiguity_difference =
      c.obs.map fun o => (o.C2C - o.C1C) - C * (o.L1C / c.f1 - o.L2C / c.f2) := by
  rw [Connection.ambiguity_difference, Connection.code_phase_diffs,
    Connection.carrier_phase_diffs]
  induction c.obs with
  | nil => rfl
  | cons o rest ih => simp [ih]

/-- Claim C6: `correct_ambiguities()` sets `offset` to the mean over all
samples of (secondary-band code minus primary-band code) minus
speed-of-light times (primary carrier / f1 − secondary carrier / f2),
and `offset_error` to the standard deviation of those per-sample
residuals; no extra sign flip is applied beyond this formula. -/
theorem correct_ambiguities_spec (c : Connection) :
    (c.correct_ambiguities).offset =
      some (npMean (c.obs.map fun o =>
        (o.C2C - o.C1C) - C * (o.L1C / c.f1 - o.L2C / c.f2))) ∧
    (c.correct_ambiguities).offset_error =
      some (npStd (c.obs.map fun o =>
        (o.C2C - o.C1C) - C * (o.L1C / c.f1 - o.L2C / c.f2))) := by
  rw [Connection.correct_ambiguities, Connection.correct_ambiguities_avg]
  exact ⟨by rw [ambiguity_difference_eq], by rw [ambiguity_difference_eq]⟩

/-- Looking a key up in an association list after mapping its values
maps the lookup result. -/
theorem lookup_map_value {β γ : Type} (f : β → γ) (k : String) :
    ∀ l : List (String × β),
      (l.map fun p => (p.1, f p.2)).lookup k = (l.lookup k).map f := by
  intro l
  induction l with
  | nil => rfl
  | cons p rest ih =>
    obtain ⟨k', v⟩ := p
    by_cases h : k = k'
    · simp [List.lookup, h]
    · simp [List.lookup, beq_eq_false_iff_ne.mpr h, ih]

/-- Claim C9: in `from_raw_obs`, if every value of a satellite's canonical
secondary code-phase band (C2C) is NaN, the conversion swaps in the
alternate band (C2P), so that the canonical band afterwards holds the
alternate band's values; otherwise both bands are left as converted. -/
theorem from_raw_obs_band_swap (raw : List (List RawMeas)) (prn : String)
    (ms : List RawMeas) (hms : (groupByPrn raw).lookup prn = some ms) :
    (from_raw_obs raw).lookup prn =
      some (normalizeBands (ms.map meas_to_tuple)) ∧
    ((ms.map meas_to_tuple).all (fun r => r.C2C.isNone) = true →
        (normalizeBands (ms.map meas_to_tuple)).map DenseRow.C2C =
          (ms.map meas_to_tuple).map DenseRow.C2P ∧
        (normalizeBands (ms.map meas_to_tuple)).map DenseRow.C2P =
          (ms.map meas_to_tuple).map DenseRow.C2C) ∧
    (¬ (ms.map meas_to_tuple).all (fun r => r.C2C.isNone) = true →
        normalizeBands (ms.map meas_to_tuple) = ms.map meas_to_tuple) := by
  refine ⟨?_, ?_, ?_⟩
  · rw [from_raw_obs]
    have h1 := lookup_map_value
      (fun v => normalizeBands (v.map meas_to_tuple)) prn (groupByPrn raw)
    rw [hms] at h1
    exact h1
  · intro hall
    rw [normalizeBands, if_pos hall]
    constructor
    · simp [List.map_map, Function.comp, swapBands]
    · simp [List.map_map, Function.comp, swapBands]
  · intro hnall
    rw [normalizeBands, if_neg hnall]

/-- Witness for C9 on a two-sample batch with an all-NaN C2C band. -/
theorem from_raw_obs_band_swap_witness :
    (from_raw_obs exRawObs).lookup "G1" =
      some (normalizeBands
        (([exRawMeas "G1" none (some 5),
           exRawMeas "G1" none (some 6)]).map meas_to_tuple)) ∧
    (normalizeBands
        (([exRawMeas "G1" none (some 5),
           exRawMeas "G1" none (some 6)]).map meas_to_tuple)).map DenseRow.C2C =
      (([exRawMeas "G1" none (some 5),
         exRawMeas "G1" none (some 6)]).map meas_to_tuple).map DenseRow.C2P :=
  ⟨(from_raw_obs_band_swap exRawObs "G1"
      [exRawMeas "G1" none (some 5), exRawMeas "G1" none (some 6)] rfl).1,
   ((from_raw_obs_band_swap exRawObs "G1"
      [exRawMeas "G1" none (some 5), exRawMeas "G1" none (some 6)] rfl).2.1
      (by decide)).1⟩

/-- Every missing tick lies strictly above the first observed tick. -/
theorem missing_gt_head :
    ∀ (l : List ℤ) (a m : ℤ), (a :: l).Chain' (· < ·) →
      m ∈ missingOfTicks (a :: l) → a < m := by
  intro l
  induction l with
  | nil =>
    intro a m _ hm
    simp [missingOfTicks] at hm
  | cons b rest ih =>
    intro a m hchain hm
    rw [List.chain'_cons] at hchain
    rw [show missingOfTicks (a :: b :: rest) =
        Finset.Ioo a b ∪ missingOfTicks (b :: rest) from rfl] at hm
    rcases Finset.mem_union.mp hm with h | h
    · exact (Finset.mem_Ioo.mp h).1
    · exact hchain.1.trans (ih b m hchain.2 h)

/-- The first observed tick is a lower bound for every entry of a
strictly increasing tick list. -/
theorem chain_head_le_get (a : ℤ) (l : List ℤ)
    (h : (a :: l).Chain' (· < ·)) (n : ℕ) (hn : n < (a :: l).length) :
    a ≤ (a :: l).get ⟨n, hn⟩ := by
  have hp : (a :: l).Pairwise (· < ·) := List.chain'_iff_pairwise.mp h
  cases n with
  | zero => exact le_refl a
  | succ k =>
    have hk : k < l.length := Nat.lt_of_succ_lt_succ hn
    rw [List.get_cons_succ]
    exact le_of_lt ((List.pairwise_cons.mp hp).1 _ (List.get_mem l k hk))

/-- Counting missing ticks strictly below the n-th observed tick of a
strictly increasing tick list gives exactly the difference between
its tick offset and its storage index. -/
theorem missing_count_lt_get :
    ∀ (l : List ℤ), l.Chain' (· < ·) → ∀ (n : ℕ) (hn : n < l.length),
      (((missingOfTicks l).filter (· < l.get ⟨n, hn⟩)).card : ℤ) =
        l.get ⟨n, hn⟩ - l.headD 0 - n := by
  intro l
  induction l with
  | nil =>
    intro _ n hn
    exact absurd hn (Nat.not_lt_zero n)
  | cons a rest ih =>
    intro hchain n hn
    cases rest with
    | nil =>
      have hn0 : n = 0 := Nat.lt_one_iff.mp hn
      subst hn0
      simp [missingOfTicks]
    | cons b rest2 =>
      rw [List.chain'_cons] at hchain
      obtain ⟨hab, hchain2⟩ := hchain
      have hunion : missingOfTicks (a :: b :: rest2) =
          Finset.Ioo a b ∪ missingOfTicks (b :: rest2) := rfl
      cases n with
      | zero =>
        have hfilter : (missingOfTicks (a :: b :: rest2)).filter (· < a) = ∅ := by
          rw [Finset.filter_eq_empty_iff]
          intro m hm
          have := missing_gt_head (b :: rest2) a m
            (List.chain'_cons.mpr ⟨hab, hchain2⟩) hm
          omega
        simp [hfilter]
      | succ k =>
        have hk : k < (b :: rest2).length := Nat.lt_of_succ_lt_succ hn
        rw [List.get_cons_succ]
        have hbv : b ≤ (b :: rest2).get ⟨k, hk⟩ :=
          chain_head_le_get b rest2 hchain2 k hk
        have h1 : (Finset.Ioo a b).filter (· < (b :: rest2).get ⟨k, hk⟩) =
            Finset.Ioo a b := by
          rw [Finset.filter_eq_self]
          intro m hm
          have := (Finset.mem_Ioo.mp hm).2
          omega
        have hdisj : Disjoint (Finset.Ioo a b)
            ((missingOfTicks (b :: rest2)).filter
              (· < (b :: rest2).get ⟨k, hk⟩)) := by
          rw [Finset.disjoint_left]
          intro m hm hm2
          have h3 := missing_gt_head rest2 b m hchain2
            (Finset.mem_filter.mp hm2).1
          have h4 := (Finset.mem_Ioo.mp hm).2
          omega
        rw [hunion, Finset.filter_union, h1,
          Finset.card_union_of_disjoint hdisj, Int.card_Ioo]
        have ihk := ih hchain2 k hk
        simp only [List.headD_cons] at ihk ⊢
        push_cast
        rw [Int.toNat_of_nonneg (by omega)]
        omega

/-- A tick between the endpoints of a strictly increasing tick list
that is not missing is one of the observed ticks. -/
theorem mem_of_between_not_missing :
    ∀ (l : List ℤ) (a t : ℤ), (a :: l).Chain' (· < ·) →
      a ≤ t → t ≤ (a :: l).getLastD 0 →
      t ∉ missingOfTicks (a :: l) → t ∈ a :: l := by
  intro l
  induction l with
  | nil =>
    intro a t _ h1 h2 _
    rw [List.getLastD_cons, List.getLastD_nil] at h2
    have := le_antisymm h2 h1
    simp [this]
  | cons b rest ih =>
    intro a t hchain h1 h2 hmiss
    rw [List.chain'_cons] at hchain
    obtain ⟨hab, hchain2⟩ := hchain
    have hunion : missingOfTicks (a :: b :: rest) =
        Finset.Ioo a b ∪ missingOfTicks (b :: rest) := rfl
    rcases eq_or_lt_of_le h1 with heq | hat
    · rw [← heq]
      exact List.mem_cons_self _ _
    · by_cases hb : t < b
      · exfalso
        apply hmiss
        rw [hunion]
        exact Finset.mem_union_left _ (Finset.mem_Ioo.mpr ⟨hat, hb⟩)
      · push_neg at hb
        have h2' : t ≤ (b :: rest).getLastD 0 := by
          rw [List.getLastD_cons]
          rw [List.getLastD_cons, List.getLastD_cons] at h2
          exact h2
        have hmiss' : t ∉ missingOfTicks (b :: rest) := by
          intro hm
          exact hmiss (hunion ▸ Finset.mem_union_right _ hm)
        exact List.mem_cons_of_mem a (ih b t hchain2 hb h2' hmiss')

/-- Claim C3: for every connection whose observation rows have strictly
increasing tick fields and every non-missing tick in
`[tick_start, tick_end]`, indexing the observation slice at
`tick_idx(tick)` yields a record whose tick field equals the queried
tick. -/
theorem tick_idx_roundtrip (c : Connection)
    (hinc : c.ticks.Chain' (· < ·)) (hne : c.obs ≠ [])
    (tick : ℤ) (h1 : c.tick_start ≤ tick) (h2 : tick ≤ c.tick_end)
    (hmiss : tick ∉ c.missing_ticks) :
    ∃ n : ℕ, c.tick_idx tick = some (n : ℤ) ∧
      ∃ o, c.obs.get? n = some o ∧ o.tick = tick := by
  have hne' : c.ticks ≠ [] := by
    rw [Connection.ticks, ne_eq, List.map_eq_nil_iff]
    exact hne
  obtain ⟨a, l, hal⟩ : ∃ a l, c.ticks = a :: l := by
    cases h : c.ticks with
    | nil => exact absurd h hne'
    | cons a l => exact ⟨a, l, rfl⟩
  have hmem : tick ∈ c.ticks := by
    rw [hal]
    refine mem_of_between_not_missing l a tick (hal ▸ hinc) ?_ ?_ ?_
    · rw [Connection.tick_start, hal] at h1
      exact h1
    · rw [Connection.tick_end, hal] at h2
      exact h2
    · rw [Connection.missing_ticks, hal] at hmiss
      exact hmiss
  obtain ⟨⟨n, hn⟩, hget⟩ := List.mem_iff_get.mp hmem
  have hcount := missing_count_lt_get c.ticks hinc n hn
  rw [hget] at hcount
  refine ⟨n, ?_, ?_⟩
  · rw [Connection.tick_idx, if_neg hmiss]
    have hmt : c.missing_ticks = missingOfTicks c.ticks := rfl
    have hstart : c.tick_start = c.ticks.headD 0 := rfl
    rw [hmt, hstart]
    congr 1
    omega
  · have hsome : c.ticks.get? n = some tick := by
      rw [List.get?_eq_get hn, hget]
    rw [Connection.ticks, List.get?_map] at hsome
    cases ho : c.obs.get? n with
    | none =>
      rw [ho] at hsome
      simp at hsome
    | some o =>
      rw [ho] at hsome
      simp only [Option.map_some'] at hsome
      exact ⟨o, rfl, Option.some.inj hsome⟩

/-- Witness for C3: in the gap-scenario connection the non-missing
tick 103 round-trips to the record at storage index 2. -/
theorem tick_idx_roundtrip_witness :
    ∃ n : ℕ, exGapConn.tick_idx 103 = some (n : ℤ) ∧
      ∃ o, exGapConn.obs.get? n = some o ∧ o.tick = 103 :=
  tick_idx_roundtrip exGapConn
    (by
      have h : exGapConn.ticks = [100, 101, 103, 104] := rfl
      rw [h]
      simp +decide [List.chain'_cons])
    (by simp [exGapConn, mkConn]) 103
    (by decide) (by decide) (by decide)

/-- When `b > 0` (satellite above the receiver's horizon plane) the
smaller-absolute-value root is the positive one,
`b_scaled + common`. -/
theorem ionRoot_pos_val (a b c : ℝ) (ha : 0 < a) (hb : 0 < b) (hc : c < 0) :
    ionRoot a b c =
      -b / (2 * a) + Real.sqrt (b ^ 2 - 4 * a * c) / (2 * a) := by
  have hD : 0 < b ^ 2 - 4 * a * c := by nlinarith
  have hsb : b < Real.sqrt (b ^ 2 - 4 * a * c) := by
    have h1 := Real.sqrt_lt_sqrt (sq_nonneg b)
      (show b ^ 2 < b ^ 2 - 4 * a * c by nlinarith)
    rwa [Real.sqrt_sq hb.le] at h1
  have h2a : (0 : ℝ) < 2 * a := by linarith
  have hxpos : 0 < -b / (2 * a) + Real.sqrt (b ^ 2 - 4 * a * c) / (2 * a) := by
    rw [div_add_div_same]
    exact div_pos (by linarith) h2a
  have hyneg : -b / (2 * a) - Real.sqrt (b ^ 2 - 4 * a * c) / (2 * a) < 0 := by
    rw [div_sub_div_same]
    refine div_neg_of_neg_of_pos ?_ h2a
    have := Real.sqrt_nonneg (b ^ 2 - 4 * a * c)
    linarith
  have hA : -b / (2 * a) < 0 := div_neg_of_neg_of_pos (by linarith) h2a
  rw [ionRoot, if_pos]
  rw [abs_of_pos hxpos, abs_of_neg hyneg]
  linarith

/-- When `b ≤ 0` the smaller-absolute-value root is the negative one,
`b_scaled − common`. -/
theorem ionRoot_nonpos_val (a b c : ℝ) (ha : 0 < a) (hb : b ≤ 0) (hc : c < 0) :
    ionRoot a b c =
      -b / (2 * a) - Real.sqrt (b ^ 2 - 4 * a * c) / (2 * a) := by
  have hD : 0 < b ^ 2 - 4 * a * c := by nlinarith
  have h2a : (0 : ℝ) < 2 * a := by linarith
  have habs : |b| < Real.sqrt (b ^ 2 - 4 * a * c) := by
    have h1 := Real.sqrt_lt_sqrt (sq_nonneg b)
      (show b ^ 2 < b ^ 2 - 4 * a * c by nlinarith)
    rwa [Real.sqrt_sq_eq_abs] at h1
  have hxpos : 0 < -b / (2 * a) + Real.sqrt (b ^ 2 - 4 * a * c) / (2 * a) := by
    rw [div_add_div_same]
    refine div_pos ?_ h2a
    have := Real.sqrt_pos.mpr hD
    linarith
  have hyneg : -b / (2 * a) - Real.sqrt (b ^ 2 - 4 * a * c) / (2 * a) < 0 := by
    rw [div_sub_div_same]
    refine div_neg_of_neg_of_pos ?_ h2a
    have := neg_le_abs b
    linarith
  have hA : 0 ≤ -b / (2 * a) := div_nonneg (by linarith) h2a.le
  rw [ionRoot, if_neg]
  rw [not_lt, abs_of_pos hxpos, abs_of_neg hyneg]
  linarith

/-- Root properties of the selected scale factor when the receiver is
inside the shell (`c < 0`) and the satellite is above the horizon
(`b > 0`): it solves the quadratic, has the smallest absolute value
among all solutions, is nonnegative, and stays at most 1 whenever the
quadratic is positive at 1. -/
theorem ionRoot_pos_spec (a b c : ℝ) (ha : 0 < a) (hb : 0 < b) (hc : c < 0) :
    a * ionRoot a b c ^ 2 + b * ionRoot a b c + c = 0 ∧
    (∀ u : ℝ, a * u ^ 2 + b * u + c = 0 → |ionRoot a b c| ≤ |u|) ∧
    0 ≤ ionRoot a b c ∧
    (0 < a + b + c → ionRoot a b c ≤ 1) := by
  have hD : 0 < b ^ 2 - 4 * a * c := by nlinarith
  have hsq : Real.sqrt (b ^ 2 - 4 * a * c) ^ 2 = b ^ 2 - 4 * a * c :=
    Real.sq_sqrt hD.le
  have hsb : b < Real.sqrt (b ^ 2 - 4 * a * c) := by
    have h1 := Real.sqrt_lt_sqrt (sq_nonneg b)
      (show b ^ 2 < b ^ 2 - 4 * a * c by nlinarith)
    rwa [Real.sqrt_sq hb.le] at h1
  have h2a : (0 : ℝ) < 2 * a := by linarith
  have hval := ionRoot_pos_val a b c ha hb hc
  have key : 2 * a * ionRoot a b c + b = Real.sqrt (b ^ 2 - 4 * a * c) := by
    rw [hval]
    field_simp
    ring
  have key2 : (2 * a * ionRoot a b c + b) ^ 2 = b ^ 2 - 4 * a * c := by
    rw [key]
    exact hsq
  have hroot : a * ionRoot a b c ^ 2 + b * ionRoot a b c + c = 0 := by
    have h40 : 4 * a * (a * ionRoot a b c ^ 2 + b * ionRoot a b c + c) = 0 := by
      linear_combination key2
    rcases mul_eq_zero.mp h40 with h | h
    · exact absurd h (by positivity)
    · exact h
  have hxpos : 0 < -b / (2 * a) + Real.sqrt (b ^ 2 - 4 * a * c) / (2 * a) := by
    rw [div_add_div_same]
    exact div_pos (by linarith) h2a
  have hyneg : -b / (2 * a) - Real.sqrt (b ^ 2 - 4 * a * c) / (2 * a) < 0 := by
    rw [div_sub_div_same]
    refine div_neg_of_neg_of_pos ?_ h2a
    have := Real.sqrt_nonneg (b ^ 2 - 4 * a * c)
    linarith
  refine ⟨hroot, ?_, ?_, ?_⟩
  · intro u hu
    have keyu : (2 * a * u + b) ^ 2 = b ^ 2 - 4 * a * c := by
      linear_combination 4 * a * hu
    have hfac : (2 * a * u + b - Real.sqrt (b ^ 2 - 4 * a * c)) *
        (2 * a * u + b + Real.sqrt (b ^ 2 - 4 * a * c)) = 0 := by
      linear_combination keyu - hsq
    rcases mul_eq_zero.mp hfac with h | h
    · have hux : u = ionRoot a b c := by
        rw [hval]
        field_simp
        linear_combination 2 * a * h
      rw [hux]
    · have huy : u = -b / (2 * a) - Real.sqrt (b ^ 2 - 4 * a * c) / (2 * a) := by
        field_simp
        linear_combination 2 * a * h
      have hA : -b / (2 * a) < 0 := div_neg_of_neg_of_pos (by linarith) h2a
      rw [huy, hval, abs_of_pos hxpos, abs_of_neg hyneg]
      linarith
  · rw [hval]
    exact hxpos.le
  · intro hsum
    have hsle : Real.sqrt (b ^ 2 - 4 * a * c) ≤ 2 * a + b := by
      rw [show 2 * a + b = Real.sqrt ((2 * a + b) ^ 2) from
        (Real.sqrt_sq (by linarith)).symm]
      exact Real.sqrt_le_sqrt (by nlinarith)
    rw [hval, div_add_div_same, div_le_one h2a]
    linarith

/-- A direction with positive dot product against some vector is
nonzero, so its squared norm is positive (Lagrange identity). -/
theorem v3dot_self_pos_of_dot_pos (d r : Vec3) (h : 0 < v3dot d r) :
    0 < v3dot d d := by
  obtain ⟨dx, dy, dz⟩ := d
  obtain ⟨rx, ry, rz⟩ := r
  simp only [v3dot] at h ⊢
  nlinarith [sq_nonneg (dx * ry - dy * rx), sq_nonneg (dx * rz - dz * rx),
    sq_nonneg (dy * rz - dz * ry), mul_pos h h,
    sq_nonneg rx, sq_nonneg ry, sq_nonneg rz]

/-- Squared distance from the origin along the receiver→satellite
line, as a quadratic in the scale factor. -/
theorem v3dot_line (r d : Vec3) (t : ℝ) :
    v3dot (v3add r (v3smul t d)) (v3add r (v3smul t d)) =
      v3dot r r + 2 * v3dot d r * t + v3dot d d * t ^ 2 := by
  obtain ⟨rx, ry, rz⟩ := r
  obtain ⟨dx, dy, dz⟩ := d
  simp only [v3dot, v3add, v3smul]
  ring

/-- The quadratic evaluated at scale 1 is the satellite's squared
distance from the origin (minus the constant). -/
theorem quad_at_one (r s : Vec3) :
    v3dot (v3sub s r) (v3sub s r) + 2 * v3dot (v3sub s r) r + v3dot r r =
      v3dot s s := by
  obtain ⟨rx, ry, rz⟩ := r
  obtain ⟨sx, sy, sz⟩ := s
  simp only [v3dot, v3sub]
  ring

/-- Claim C7 (amended): `ion_locs` solves `a·t² + b·t + c = 0` per sample
(`a = |sat−rec|²`, `b = 2·(sat−rec)·rec`, `c = |rec|² − R_ion²`) and,
independently for each sample, selects the root with the smaller
absolute value; when the receiver is strictly inside the ionosphere
shell, the satellite strictly beyond it, and the satellite above the
receiver's horizon plane (`(sat−rec)·rec > 0`), the returned point
lies at distance equal to the ionosphere radius from the origin and
between receiver and satellite along the line. -/
theorem ion_locs_pierce_spec (rec_pos : Vec3) (sats : List Vec3) (ionh : ℝ)
    (i : ℕ) (sat : Vec3) (hsat : sats.get? i = some sat)
    (hrec : v3dot rec_pos rec_pos < ionh ^ 2)
    (hbeyond : ionh ^ 2 < v3dot sat sat)
    (hhor : 0 < v3dot (v3sub sat rec_pos) rec_pos) :
    (ion_locs rec_pos sats ionh).get? i = some (ion_loc rec_pos sat ionh) ∧
    ∃ t : ℝ,
      ion_loc rec_pos sat ionh = v3add rec_pos (v3smul t (v3sub sat rec_pos)) ∧
      v3dot (v3sub sat rec_pos) (v3sub sat rec_pos) * t ^ 2 +
        2 * v3dot (v3sub sat rec_pos) rec_pos * t +
        (v3dot rec_pos rec_pos - ionh ^ 2) = 0 ∧
      (∀ u : ℝ, v3dot (v3sub sat rec_pos) (v3sub sat rec_pos) * u ^ 2 +
        2 * v3dot (v3sub sat rec_pos) rec_pos * u +
        (v3dot rec_pos rec_pos - ionh ^ 2) = 0 → |t| ≤ |u|) ∧
      0 ≤ t ∧ t ≤ 1 ∧
      v3dot (ion_loc rec_pos sat ionh) (ion_loc rec_pos sat ionh) =
        ionh ^ 2 := by
  have hmap : (ion_locs rec_pos sats ionh).get? i =
      some (ion_loc rec_pos sat ionh) := by
    rw [ion_locs, List.get?_map, hsat]
    rfl
  have ha : 0 < v3dot (v3sub sat rec_pos) (v3sub sat rec_pos) :=
    v3dot_self_pos_of_dot_pos _ _ hhor
  have hb : 0 < 2 * v3dot (v3sub sat rec_pos) rec_pos := by linarith
  have hc : v3dot rec_pos rec_pos - ionh ^ 2 < 0 := by linarith
  obtain ⟨hroot, hmin, ht0, ht1'⟩ := ionRoot_pos_spec _ _ _ ha hb hc
  have ht1 : ionRoot (v3dot (v3sub sat rec_pos) (v3sub sat rec_pos))
      (2 * v3dot (v3sub sat rec_pos) rec_pos)
      (v3dot rec_pos rec_pos - ionh ^ 2) ≤ 1 := by
    refine ht1' ?_
    have hq := quad_at_one rec_pos sat
    linarith
  refine ⟨hmap, ionRoot _ _ _, rfl, hroot, hmin, ht0, ht1, ?_⟩
  rw [show ion_loc rec_pos sat ionh = v3add rec_pos (v3smul
      (ionRoot (v3dot (v3sub sat rec_pos) (v3sub sat rec_pos))
        (2 * v3dot (v3sub sat rec_pos) rec_pos)
        (v3dot rec_pos rec_pos - ionh ^ 2)) (v3sub sat rec_pos)) from rfl,
    v3dot_line]
  linear_combination hroot

/-- Witness for C7 (amended) at receiver (3,0,0), satellite (9,0,0),
shell radius 5: the pierce point (5,0,0) at scale 1/3. -/
theorem ion_locs_pierce_spec_witness :
    (ion_locs (3, 0, 0) [((9 : ℝ), (0 : ℝ), (0 : ℝ))] 5).get? 0 =
      some (ion_loc (3, 0, 0) (9, 0, 0) 5) ∧
    ∃ t : ℝ,
      ion_loc ((3 : ℝ), (0 : ℝ), (0 : ℝ)) (9, 0, 0) 5 =
        v3add (3, 0, 0) (v3smul t (v3sub (9, 0, 0) (3, 0, 0))) ∧
      v3dot (v3sub ((9 : ℝ), (0 : ℝ), (0 : ℝ)) (3, 0, 0))
          (v3sub (9, 0, 0) (3, 0, 0)) * t ^ 2 +
        2 * v3dot (v3sub ((9 : ℝ), (0 : ℝ), (0 : ℝ)) (3, 0, 0)) (3, 0, 0) * t +
        (v3dot ((3 : ℝ), (0 : ℝ), (0 : ℝ)) (3, 0, 0) - 5 ^ 2) = 0 ∧
      (∀ u : ℝ, v3dot (v3sub ((9 : ℝ), (0 : ℝ), (0 : ℝ)) (3, 0, 0))
          (v3sub (9, 0, 0) (3, 0, 0)) * u ^ 2 +
        2 * v3dot (v3sub ((9 : ℝ), (0 : ℝ), (0 : ℝ)) (3, 0, 0)) (3, 0, 0) * u +
        (v3dot ((3 : ℝ), (0 : ℝ), (0 : ℝ)) (3, 0, 0) - 5 ^ 2) = 0 → |t| ≤ |u|) ∧
      0 ≤ t ∧ t ≤ 1 ∧
      v3dot (ion_loc ((3 : ℝ), (0 : ℝ), (0 : ℝ)) (9, 0, 0) 5)
        (ion_loc (3, 0, 0) (9, 0, 0) 5) = 5 ^ 2 :=
  ion_locs_pierce_spec (3, 0, 0) [(9, 0, 0)] 5 0 (9, 0, 0) rfl
    (by norm_num [v3dot]) (by norm_num [v3dot])
    (by norm_num [v3dot, v3sub])

/-- Claim C7 counterexample: with the receiver at distance `EARTH_RADIUS`
from the origin and a satellite beyond the shell but on the far side
of the Earth (below the receiver's horizon), `ion_locs` picks the
negative root: the returned point still lies on the shell, but it is
not between receiver and satellite along the line, refuting the
claim's "between" conclusion under its stated hypotheses. -/
theorem ion_locs_between_counterexample :
    v3dot ((6371000 : ℝ), (0 : ℝ), (0 : ℝ)) (6371000, 0, 0) =
      EARTH_RADIUS ^ 2 ∧
    IONOSPHERE_H ^ 2 <
      v3dot ((-7000000 : ℝ), (0 : ℝ), (0 : ℝ)) (-7000000, 0, 0) ∧
    ion_locs (6371000, 0, 0) [((-7000000 : ℝ), (0 : ℝ), (0 : ℝ))]
        IONOSPHERE_H = [((6721000 : ℝ), (0 : ℝ), (0 : ℝ))] ∧
    v3dot ((6721000 : ℝ), (0 : ℝ), (0 : ℝ)) (6721000, 0, 0) =
      IONOSPHERE_H ^ 2 ∧
    ¬ ∃ t : ℝ, 0 ≤ t ∧ t ≤ 1 ∧
        ((6721000 : ℝ), (0 : ℝ), (0 : ℝ)) =
          v3add (6371000, 0, 0)
            (v3smul t (v3sub (-7000000, 0, 0) (6371000, 0, 0))) := by
  refine ⟨by norm_num [v3dot, EARTH_RADIUS], ?_, ?_, ?_, ?_⟩
  · norm_num [v3dot, IONOSPHERE_H, EARTH_RADIUS]
  · rw [ion_locs]
    simp only [List.map_cons, List.map_nil, List.cons.injEq, and_true]
    have h1 : ion_loc ((6371000 : ℝ), (0 : ℝ), (0 : ℝ)) (-7000000, 0, 0)
        IONOSPHERE_H =
        v3add (6371000, 0, 0) (v3smul
          (ionRoot
            (v3dot (v3sub (-7000000, 0, 0) (6371000, 0, 0))
              (v3sub (-7000000, 0, 0) (6371000, 0, 0)))
            (2 * v3dot (v3sub (-7000000, 0, 0) (6371000, 0, 0)) (6371000, 0, 0))
            (v3dot ((6371000 : ℝ), (0 : ℝ), (0 : ℝ)) (6371000, 0, 0) -
              IONOSPHERE_H ^ 2))
          (v3sub (-7000000, 0, 0) (6371000, 0, 0))) := rfl
    have ha' : v3dot (v3sub ((-7000000 : ℝ), (0 : ℝ), (0 : ℝ)) (6371000, 0, 0))
        (v3sub (-7000000, 0, 0) (6371000, 0, 0)) = 13371000 ^ 2 := by
      norm_num [v3dot, v3sub]
    have hb' : 2 * v3dot (v3sub ((-7000000 : ℝ), (0 : ℝ), (0 : ℝ))
        (6371000, 0, 0)) ((6371000 : ℝ), (0 : ℝ), (0 : ℝ)) =
        -170373282000000 := by
      norm_num [v3dot, v3sub]
    have hc' : v3dot ((6371000 : ℝ), (0 : ℝ), (0 : ℝ)) (6371000, 0, 0) -
        IONOSPHERE_H ^ 2 = -4582200000000 := by
      norm_num [v3dot, IONOSPHERE_H, EARTH_RADIUS]
    rw [h1, ha', hb', hc']
    have hroot : ionRoot ((13371000 : ℝ) ^ 2) (-170373282000000)
        (-4582200000000) = -(350000 / 13371000) := by
      rw [ionRoot_nonpos_val _ _ _ (by norm_num) (by norm_num) (by norm_num)]
      rw [show ((-170373282000000 : ℝ)) ^ 2 -
          4 * (13371000 : ℝ) ^ 2 * (-4582200000000) =
          ((179732982000000 : ℝ)) ^ 2 from by norm_num]
      rw [Real.sqrt_sq (by norm_num)]
      norm_num
    rw [hroot]
    norm_num [v3add, v3smul, v3sub, Prod.ext_iff]
  · norm_num [v3dot, IONOSPHERE_H, EARTH_RADIUS]
  · rintro ⟨t, ht0, ht1, heq⟩
    have hfst := congrArg Prod.fst heq
    simp only [v3add, v3smul, v3sub] at hfst
    norm_num at hfst
    nlinarith [hfst, ht0]

end Tid
